import Mathlib

/-!
Shallow embedding of `modules/dice/dice.py` from the akari-bot repository:
the dice-notation interpreter (standard, fudge, bonus/punish, exploding
success pool and double-cross variants), its numeric formatter and its
truncation policy.  Random draws are modelled as an explicit stream
`Nat → Nat` (the value returned by the i-th `Random.randint` call) and, for
the fudge variant, `Nat → Fin 3` (the i-th `Random.choice` pick).
-/

namespace DiceMod

/-- Configuration values read once at module load (`Config(...)` calls at the
top of `dice.py`); field defaults are the defaults given at those call sites. -/
structure DiceConfig where
  max_dice_count : Nat := 100
  max_output_cnt : Nat := 50
  max_output_len : Nat := 200
  max_output_exp : Nat := 9
deriving Repr, DecidableEq

def defaultCfg : DiceConfig := {}

/-- Errors of `dice.py`: `DiceSyntaxError`, `DiceValueError` (message template
plus the offending value when it is truthy), and `crash` for Python-level
exceptions (IndexError / UnboundLocalError) that escape the typed errors. -/
inductive DiceError where
  | syn (msg : String)
  | value (msg : String) (val : Option String)
  | crash
deriving Repr, DecidableEq

/-- A roll outcome: the `result` and `detail` attributes set by `roll()`. -/
structure Outcome where
  result : Int
  detail : String
deriving Repr, DecidableEq

instance {ε α : Type} [DecidableEq ε] [DecidableEq α] : DecidableEq (Except ε α)
  | .ok a, .ok b => if h : a = b then .isTrue (by rw [h]) else .isFalse (by simp [h])
  | .error a, .error b => if h : a = b then .isTrue (by rw [h]) else .isFalse (by simp [h])
  | .ok _, .error _ => .isFalse (by simp)
  | .error _, .ok _ => .isFalse (by simp)

/-- Stream of `Random.randint` results: `s i` is the value of the i-th call. -/
abbrev RSource := Nat → Nat

/-- Stream of `Random.choice(["-", "0", "+"])` picks for the fudge variant. -/
abbrev FSource := Nat → Fin 3

/-- Scientific rendering of an integer with `p` fractional digits, matching
Python `f"{num:.{p}e}"` by exact decimal round-half-even; Python routes the
int through a binary float, which agrees on float-representable values. -/
def sciString (num : Int) (p : Nat) : String :=
  let a := num.natAbs
  let sign := if num < 0 then "-" else ""
  if a = 0 then
    sign ++ "0." ++ String.mk (List.replicate p '0') ++ "e+00"
  else
    let L := (toString a).length
    let e := L - 1
    let (mant, e) :=
      if L ≤ p + 1 then (a * 10 ^ (p + 1 - L), e)
      else
        let unit := 10 ^ (L - (p + 1))
        let head := a / unit
        let rem := a % unit
        let rounded :=
          if 2 * rem > unit then head + 1
          else if 2 * rem < unit then head
          else if head % 2 = 0 then head else head + 1
        if rounded = 10 ^ (p + 1) then (10 ^ p, e + 1) else (rounded, e)
    let ms := toString mant
    let exps := if e < 10 then "0" ++ toString e else toString e
    sign ++ ms.take 1 ++ "." ++ ms.drop 1 ++ "e+" ++ exps

/-- `fmt_num` from `dice.py`: scientific notation once the magnitude reaches
`10 ^ MAX_OUTPUT_EXP` (and that threshold is positive), parenthesized unless
`sep` is set; plain decimal otherwise. -/
def fmt_num (cfg : DiceConfig) (num : Int) (sep : Bool := false) : String :=
  if 0 < cfg.max_output_exp ∧ 10 ^ cfg.max_output_exp ≤ num.natAbs then
    let s := sciString num cfg.max_output_exp
    if !sep then "(" ++ s ++ ")" else s
  else
    toString num

/-- Modelled from the spec: `str(I18NContext("dice.message.output.too_long",
length=n))` — `core.builtins.message.elements` is not under `src/`; the spec
says errors and placeholders carry a message-template identifier plus
interpolation values. -/
def i18nTooLongItems (n : Nat) : String :=
  "\x7bI18N:dice.message.output.too_long,length=" ++ toString n ++ "\x7d"

/-- Placeholder used verbatim in `dice.py` when the whole trace is too long. -/
def tooLongTrace : String := "\x7bI18N:dice.message.too_long\x7d"

/-- Modelled from the spec: `str(I18NContext(key, ...))` for value-error
message templates carrying an interpolated bound (`max=...`). -/
def i18nMsgMax (key : String) (m : Nat) : String :=
  "\x7bI18N:" ++ key ++ ",max=" ++ toString m ++ "\x7d"

/-- Modelled from the spec: `isint` from `core.utils.message` (not under
`src/`); per the spec all parameters are integers, so `isint s` holds exactly
when `s` is a nonempty string of decimal digits (no sign can reach it: every
variant's alphabet check rejects `+`/`-` beforehand). -/
def isint (s : String) : Bool :=
  s.length ≠ 0 && s.toList.all Char.isDigit

/-- Numeric value of a digit string, as Python `int(s)` on the strings that
pass `isint`. -/
def digitsToNat (s : String) : Nat :=
  s.toList.foldl (fun acc c => acc * 10 + c.toNat - '0'.toNat) 0

/-! ### Python string primitives

`str.upper`, `str.replace` and `str.split` are modelled structurally over
the character list (Python strings are character sequences; all inputs here
are ASCII). -/

/-- Python `str.upper` on ASCII text. -/
def pyUpper (s : String) : String := String.mk (s.toList.map Char.toUpper)

/-- One pass of Python `str.replace`: non-overlapping occurrences of `pat`
replaced left to right; the fuel starts at the text length and dominates the
number of characters consumed per step. -/
def pyReplaceAux (pat rep : List Char) : Nat → List Char → List Char
  | _, [] => []
  | 0, cs => cs
  | fuel + 1, c :: cs =>
    if pat ≠ [] ∧ pat.isPrefixOf (c :: cs) then
      rep ++ pyReplaceAux pat rep fuel ((c :: cs).drop pat.length)
    else c :: pyReplaceAux pat rep fuel cs

/-- Python `str.replace` (every occurrence, left to right; `pat` is nonempty
at every call site). -/
def pyReplace (s pat rep : String) : String :=
  String.mk (pyReplaceAux pat.toList rep.toList s.toList.length s.toList)

/-- Accumulating scan behind `pySplitOn`: `acc` holds the current part in
reverse. -/
def pySplitAux (sep : List Char) : Nat → List Char → List Char → List String
  | _, acc, [] => [String.mk acc.reverse]
  | 0, acc, cs => [String.mk (acc.reverse ++ cs)]
  | fuel + 1, acc, c :: cs =>
    if sep.isPrefixOf (c :: cs) then
      String.mk acc.reverse :: pySplitAux sep fuel [] ((c :: cs).drop sep.length)
    else pySplitAux sep fuel (c :: acc) cs

/-- Python `str.split(sep)` with a nonempty separator: non-overlapping
occurrences split left to right, keeping empty parts. -/
def pySplitOn (s sep : String) : List String :=
  pySplitAux sep.toList s.toList.length [] s.toList

/-- Python `in` on a single character. -/
def pyContains (s : String) (c : Char) : Bool := s.toList.contains c

/-- Value-error payload for a string argument: Python `if value:` keeps the
value only when it is truthy (nonempty). -/
def valErrS (msg : String) (val : String) : DiceError :=
  .value msg (if val = "" then none else some val)

/-- Value-error payload for an integer argument: truthy means nonzero. -/
def valErrN (msg : String) (val : Nat) : DiceError :=
  .value msg (if val = 0 then none else some (toString val))

def invalidMsg : String := "\x7bI18N:dice.message.error.invalid\x7d"

def countInvalidMsg : String := "\x7bI18N:dice.message.error.value.count.invalid\x7d"

def sidesInvalidMsg : String := "\x7bI18N:dice.message.error.value.sides.invalid\x7d"

def advInvalidMsg : String := "\x7bI18N:dice.message.error.value.advantage.invalid\x7d"

def addLineInvalidMsg : String := "\x7bI18N:dice.message.error.value.add_line.invalid\x7d"

def successLineInvalidMsg : String :=
  "\x7bI18N:dice.message.error.value.dice_success_line.invalid\x7d"

def sidesOutMsg : String := "\x7bI18N:dice.message.error.value.sides.out_of_range\x7d"

def sidesD1Msg : String := "\x7bI18N:dice.message.error.value.sides.d1\x7d"

def advOutMsg : String := "\x7bI18N:dice.message.error.value.advantage.out_of_range\x7d"

/-! ## Standard dice (`Dice`) -/

/-- Validated parameters of a standard `Dice` item together with the raw code
(`self.code`, kept in original case for the trace). -/
structure DiceSpec where
  code : String
  count : Nat
  sides : Nat
  adv : Nat
  positive : Int
deriving Repr, DecidableEq

/-- Legal alphabet of the standard grammar: the regex `[^0-9DKQ%]` in
`Dice.get_args` flags anything else as a syntax error. -/
def stdLegal (c : Char) : Bool :=
  c.isDigit || c == 'D' || c == 'K' || c == 'Q' || c == '%'

/-- `Dice.get_args`: upper-case, expand the `D%` alias, check the alphabet,
split on `D`, carve out the optional `K`/`Q` suffix, then integer-check count,
sides and adv.  `crash` models the uncaught IndexError when no `D` occurs. -/
def diceGetArgs (code : String) : Except DiceError (Nat × Nat × Nat × Int) :=
  let dc := pyReplace (pyUpper code) "D%" "D100"
  if dc.toList.any (fun c => !stdLegal c) then .error (.syn invalidMsg)
  else
    match pySplitOn dc "D" with
    | t0 :: t1 :: _ =>
      let dice_count := if t0.length ≠ 0 then t0 else "1"
      let (dice_sides, dice_adv, positive) :=
        if pyContains t1 'K' then
          match pySplitOn t1 "K" with
          | s :: rest => (s, String.intercalate "K" rest, (1 : Int))
          | [] => (t1, "0", 0)
        else if pyContains t1 'Q' then
          match pySplitOn t1 "Q" with
          | s :: rest => (s, String.intercalate "Q" rest, (-1 : Int))
          | [] => (t1, "0", 0)
        else (t1, "0", 0)
      let dice_adv := if positive ≠ 0 ∧ dice_adv = "" then "1" else dice_adv
      if !isint dice_count then .error (valErrS countInvalidMsg dice_count)
      else if !isint dice_sides then .error (valErrS sidesInvalidMsg dice_sides)
      else if !isint dice_adv then .error (valErrS advInvalidMsg dice_adv)
      else .ok (digitsToNat dice_count, digitsToNat dice_sides, digitsToNat dice_adv, positive)
    | _ => .error .crash

/-- `Dice.__init__`: run `get_args`, then the four range checks, in source
order.  Raised errors never touch the random source. -/
def parseDice (cfg : DiceConfig) (code : String) : Except DiceError DiceSpec :=
  match diceGetArgs code with
  | .error e => .error e
  | .ok (count, sides, adv, positive) =>
    if count < 1 ∨ count > cfg.max_dice_count then
      .error (valErrN (i18nMsgMax "dice.message.error.value.count.out_of_range"
        cfg.max_dice_count) count)
    else if sides < 1 then .error (valErrN sidesOutMsg sides)
    else if sides = 1 then .error (.value sidesD1Msg none)
    else if adv > count then .error (valErrN advOutMsg adv)
    else .ok ⟨code, count, sides, adv, positive⟩

/-- Stable insertion of an (index, value) pair: it passes every earlier pair
with a value not above its own, so equal values keep their original order. -/
def insPair (x : Nat × Nat) : List (Nat × Nat) → List (Nat × Nat)
  | [] => [x]
  | y :: ys => if x.2 < y.2 then x :: y :: ys else y :: insPair x ys

/-- `np.argsort` on the draw list: ascending indices by value.  Ties keep
index order; numpy's default sort may permute tied indices, but the retained
multiset of values — all the result depends on — is the same either way. -/
def argsort (l : List Nat) : List Nat :=
  (l.enum.foldl (fun acc x => insPair x acc) []).map Prod.fst

/-- Final step shared by every `roll()`: replace the assembled trace with the
generic placeholder when it exceeds the maximum trace length. -/
def lenTrunc (cfg : DiceConfig) (out : String) : String :=
  if out.length > cfg.max_output_len then tooLongTrace else out

/-- The random sequence generated by `Dice.roll`: `count` calls of
`Random.randint(1, sides)`, i.e. the first `count` stream values. -/
def diceDraws (sp : DiceSpec) (s : RSource) : List Nat :=
  (List.range sp.count).map s

/-- The kept index list of the keep/drop branch: `argsort`'s last `adv`
indices for keep-highest (`positive == 1`), its first `adv` for keep-lowest. -/
def diceKeptIdx (sp : DiceSpec) (draws : List Nat) : List Nat :=
  if sp.positive = 1 then (argsort draws).drop (sp.count - sp.adv)
  else (argsort draws).take sp.adv

/-- The value list summed by `Dice.roll`: under keep/drop, `new_results` (the
kept values in index order); otherwise the draws themselves. -/
def diceResults (sp : DiceSpec) (draws : List Nat) : List Nat :=
  if sp.adv ≠ 0 then
    ((List.range sp.count).filter (fun i => (diceKeptIdx sp draws).contains i)).map
      (fun i => draws.getD i 0)
  else draws

/-- The numeric result of `Dice.roll`: the sum of the retained values, or the
single retained value with no sum bracket.  `headD 0` covers the single-value
path; the list is nonempty for every validated spec (`count ≥ 1`, and
`adv ≥ 1` whenever the keep/drop branch runs). -/
def diceResultVal (sp : DiceSpec) (draws : List Nat) : Int :=
  let results := diceResults sp draws
  if results.length > 1 then (results.sum : Int) else (results.headD 0 : Int)

/-- Itemized content of the keep/drop bracket: each draw through `fmt_num`,
kept indices starred, separated by `", "`. -/
def diceItems (cfg : DiceConfig) (draws : List Nat) (indexes : List Nat) : String :=
  String.intercalate ", " ((List.range draws.length).map (fun i =>
    fmt_num cfg (draws.getD i 0) ++ if indexes.contains i then "*" else ""))

/-- The keep/drop bracket appended to the trace (empty when `adv == 0`),
itemized unless `count >= MAX_OUTPUT_CNT`. -/
def diceAdvPart (cfg : DiceConfig) (sp : DiceSpec) (draws : List Nat) : String :=
  if sp.adv ≠ 0 then
    if sp.count ≥ cfg.max_output_cnt then "=[" ++ i18nTooLongItems sp.count ++ "]"
    else "=[" ++ diceItems cfg draws (diceKeptIdx sp draws) ++ "]"
  else ""

/-- The sum bracket (empty when a single value remains), itemized unless
`count > MAX_OUTPUT_CNT` — note the strict comparison here, unlike the
keep/drop bracket's `>=`. -/
def diceSumPart (cfg : DiceConfig) (sp : DiceSpec) (draws : List Nat) : String :=
  let results := diceResults sp draws
  if results.length > 1 then
    if sp.count > cfg.max_output_cnt then "=[" ++ i18nTooLongItems sp.count ++ "]"
    else "=[" ++ String.intercalate "+" (results.map (fun v => fmt_num cfg (v : Int))) ++ "]"
  else ""

/-- The trace assembled by `Dice.roll` before the final length check. -/
def diceOutput (cfg : DiceConfig) (sp : DiceSpec) (draws : List Nat) : String :=
  sp.code ++ diceAdvPart cfg sp draws ++ diceSumPart cfg sp draws ++ "=" ++
    fmt_num cfg (diceResultVal sp draws) true

/-- `Dice.roll`: draw, assemble the trace, truncate it when too long. -/
def diceRoll (cfg : DiceConfig) (sp : DiceSpec) (s : RSource) : Outcome :=
  let draws := diceDraws sp s
  ⟨diceResultVal sp draws, lenTrunc cfg (diceOutput cfg sp draws)⟩

/-- Construct-then-roll for a standard item; the second component is the
number of `randint` calls made (zero whenever construction fails). -/
def evalStd (cfg : DiceConfig) (code : String) (s : RSource) :
    Except DiceError Outcome × Nat :=
  match parseDice cfg code with
  | .error e => (.error e, 0)
  | .ok sp => (.ok (diceRoll cfg sp s), sp.count)

/-! ## Fudge dice (`FudgeDice`) -/

/-- Validated parameters of a `FudgeDice` item. -/
structure FudgeSpec where
  code : String
  count : Nat
deriving Repr, DecidableEq

/-- Legal alphabet after stripping `D`: the regex `[^0-9F]`. -/
def fudgeLegal (c : Char) : Bool := c.isDigit || c == 'F'

/-- `FudgeDice.get_args`: upper-case, drop every `D`, check the alphabet,
split on `F`, take the part before it (default count 4). -/
def fudgeGetArgs (code : String) : Except DiceError Nat :=
  let dc := pyReplace (pyUpper code) "D" ""
  if dc.toList.any (fun c => !fudgeLegal c) then .error (.syn invalidMsg)
  else
    let dice_count :=
      let t0 := (pySplitOn dc "F").headD ""
      if t0.length ≠ 0 then t0 else "4"
    if !isint dice_count then .error (valErrS countInvalidMsg dice_count)
    else .ok (digitsToNat dice_count)

/-- `FudgeDice.__init__`: `get_args` then the count range check. -/
def parseFudge (cfg : DiceConfig) (code : String) : Except DiceError FudgeSpec :=
  match fudgeGetArgs code with
  | .error e => .error e
  | .ok count =>
    if count < 1 ∨ count > cfg.max_dice_count then
      .error (valErrN (i18nMsgMax "dice.message.error.value.count.out_of_range"
        cfg.max_dice_count) count)
    else .ok ⟨code, count⟩

/-- The choice set `["-", "0", "+"]` of `Random.choice` in `FudgeDice.roll`. -/
def fudgeSymbol : Fin 3 → String
  | 0 => "-"
  | 1 => "0"
  | 2 => "+"

/-- The pick sequence of `FudgeDice.roll`: `count` `Random.choice` calls. -/
def fudgePicks (sp : FudgeSpec) (f : FSource) : List String :=
  (List.range sp.count).map (fun i => fudgeSymbol (f i))

/-- The fudge result: +1 per `+`, -1 per `-`, 0 per `0`. -/
def fudgeResultVal (picks : List String) : Int :=
  picks.foldl (fun acc r => if r = "-" then acc - 1 else if r = "+" then acc + 1 else acc) 0

/-- The trace assembled by `FudgeDice.roll` before the length check: the
truncated branch assigns (rather than appends to) `output`, so it drops the
code prefix — and it triggers only for `count` strictly above the cap. -/
def fudgeOutput (cfg : DiceConfig) (sp : FudgeSpec) (picks : List String) : String :=
  let output :=
    if sp.count > cfg.max_output_cnt then
      "=[" ++ i18nTooLongItems sp.count ++ "]"
    else
      pyReplace sp.code "D" "" ++ "=[" ++ String.intercalate ", " picks ++ "]"
  output ++ "=" ++ fmt_num cfg (fudgeResultVal picks) true

/-- `FudgeDice.roll`. -/
def fudgeRoll (cfg : DiceConfig) (sp : FudgeSpec) (f : FSource) : Outcome :=
  let picks := fudgePicks sp f
  ⟨fudgeResultVal picks, lenTrunc cfg (fudgeOutput cfg sp picks)⟩

/-- Construct-then-roll for a fudge item, with the number of picks consumed. -/
def evalFudge (cfg : DiceConfig) (code : String) (f : FSource) :
    Except DiceError Outcome × Nat :=
  match parseFudge cfg code with
  | .error e => (.error e, 0)
  | .ok sp => (.ok (fudgeRoll cfg sp f), sp.count)

/-! ## Bonus/Punish dice (`BonusPunishDice`) -/

/-- Validated parameters of a `BonusPunishDice` item: `positive` is true for
`P` (bonus, take maximum) and false for `B` (punish, take minimum). -/
structure BPSpec where
  code : String
  count : Nat
  positive : Bool
deriving Repr, DecidableEq

/-- Legal alphabet: the regex `[^0-9BP]`. -/
def bpLegal (c : Char) : Bool := c.isDigit || c == 'B' || c == 'P'

/-- `BonusPunishDice.get_args`: branch on which of `B`/`P` occurs; the count
is the part after the first occurrence when nonempty, else 1.  A code with
neither letter crashes (UnboundLocalError on `positive`). -/
def bpGetArgs (code : String) : Except DiceError (Nat × Bool) :=
  let dc := pyUpper code
  if dc.toList.any (fun c => !bpLegal c) then .error (.syn invalidMsg)
  else if pyContains dc 'B' then
    let t1 := (pySplitOn dc "B").getD 1 ""
    let dice_count := if t1 ≠ "" then t1 else "1"
    if !isint dice_count then .error (valErrS countInvalidMsg dice_count)
    else .ok (digitsToNat dice_count, false)
  else if pyContains dc 'P' then
    let t1 := (pySplitOn dc "P").getD 1 ""
    let dice_count := if t1 ≠ "" then t1 else "1"
    if !isint dice_count then .error (valErrS countInvalidMsg dice_count)
    else .ok (digitsToNat dice_count, true)
  else .error .crash

/-- `BonusPunishDice.__init__`: `get_args` then the count range check. -/
def parseBP (cfg : DiceConfig) (code : String) : Except DiceError BPSpec :=
  match bpGetArgs code with
  | .error e => .error e
  | .ok (count, positive) =>
    if count < 1 ∨ count > cfg.max_dice_count then
      .error (valErrN (i18nMsgMax "dice.message.error.value.count.out_of_range"
        cfg.max_dice_count) count)
    else .ok ⟨code, count, positive⟩

/-- Maximum of a list, Python `max` (meaningful on nonempty lists only). -/
def listMax : List Nat → Nat
  | [] => 0
  | x :: xs => xs.foldl max x

/-- Minimum of a list, Python `min` (meaningful on nonempty lists only). -/
def listMin : List Nat → Nat
  | [] => 0
  | x :: xs => xs.foldl min x

/-- Candidate list built by `BonusPunishDice.roll`: the base d100 roll,
then `int(str(item) + str(d100_digit))` per drawn digit — which equals
`10 * item + d100_digit` since `d100_digit = base % 10 < 10` — with every
zero candidate turned into 100. -/
def bpCandidates (base : Nat) (digits : List Nat) : List Nat :=
  (base :: digits.map (fun item => 10 * item + base % 10)).map
    (fun item => if item = 0 then 100 else item)

/-- The digit draws of `BonusPunishDice.roll`: `count` calls of
`Random.randint(0, 9)` made after the base `randint(1, 100)` call, so they
sit at stream positions `1 .. count`. -/
def bpDigits (sp : BPSpec) (s : RSource) : List Nat :=
  (List.range sp.count).map (fun i => s (i + 1))

/-- The bonus/punish result: max of the candidates under `P`, min under `B`. -/
def bpResultVal (sp : BPSpec) (base : Nat) (digits : List Nat) : Int :=
  let new_results := bpCandidates base digits
  if sp.positive then (listMax new_results : Int) else (listMin new_results : Int)

/-- The trace assembled by `BonusPunishDice.roll` before the length check:
`D100=<base>, <code>`, then the digit bracket (single digit inline,
itemized list for more, placeholder at `count >= MAX_OUTPUT_CNT`). -/
def bpOutput (cfg : DiceConfig) (sp : BPSpec) (base : Nat) (digits : List Nat) : String :=
  let out0 := "D100=" ++ toString base ++ ", " ++ sp.code
  let outBuf :=
    if sp.count > 1 then
      if sp.count ≥ cfg.max_output_cnt then "=[" ++ i18nTooLongItems sp.count ++ "]"
      else "=[" ++ String.intercalate ", " (digits.map (fun v => fmt_num cfg (v : Int))) ++ "]"
    else "=" ++ fmt_num cfg ((digits.headD 0 : Nat) : Int) true
  out0 ++ outBuf ++ "=" ++ fmt_num cfg (bpResultVal sp base digits) true

/-- `BonusPunishDice.roll`. -/
def bpRoll (cfg : DiceConfig) (sp : BPSpec) (s : RSource) : Outcome :=
  let base := s 0
  let digits := bpDigits sp s
  ⟨bpResultVal sp base digits, lenTrunc cfg (bpOutput cfg sp base digits)⟩

/-- Construct-then-roll for a bonus/punish item; on success it consumes one
base draw plus `count` digit draws. -/
def evalBP (cfg : DiceConfig) (code : String) (s : RSource) :
    Except DiceError Outcome × Nat :=
  match parseBP cfg code with
  | .error e => (.error e, 0)
  | .ok sp => (.ok (bpRoll cfg sp s), 1 + sp.count)

/-! ## Regex helpers for the `WODDice`/`DXDice` grammars

`re.match` anchors at the start only, so trailing characters after the
matched prefix are ignored.  The patterns are chains of `(\d+)` groups and
optional `(?:X(\d+))?` groups; greedy digit spans are exact for them since a
digit group is always followed by a non-digit letter or the pattern end. -/

/-- Longest digit prefix and the remainder. -/
def spanDigits : List Char → List Char × List Char
  | [] => ([], [])
  | c :: cs =>
    if c.isDigit then
      let (d, r) := spanDigits cs
      (c :: d, r)
    else ([], c :: cs)

/-- Optional group `(?:g(\d+))?`: consumes `g` and at least one digit, or
nothing at all. -/
def optGroup (g : Char) (cs : List Char) : Option String × List Char :=
  match cs with
  | c :: rest =>
    if c = g then
      let (d, r) := spanDigits rest
      if d.isEmpty then (none, cs) else (some (String.mk d), r)
    else (none, cs)
  | [] => (none, [])

/-! ## Exploding success pool (`WODDice`) -/

/-- Validated parameters of a `WODDice` item. -/
structure WODSpec where
  code : String
  count : Nat
  add_line : Nat
  success_line : Nat
  success_line_max : Nat
  sides : Nat
deriving Repr, DecidableEq

/-- Match of `(\d+)A(\d+)(?:K(\d+))?(?:Q(\d+))?(?:M(\d+))?` against the
upper-cased code. -/
def wodMatch (dc : String) :
    Option (String × String × Option String × Option String × Option String) :=
  let (d1, r1) := spanDigits dc.toList
  if d1.isEmpty then none
  else
    match r1 with
    | 'A' :: r2 =>
      let (d2, r3) := spanDigits r2
      if d2.isEmpty then none
      else
        let (k, r4) := optGroup 'K' r3
        let (q, r5) := optGroup 'Q' r4
        let (m, _) := optGroup 'M' r5
        some (String.mk d1, String.mk d2, k, q, m)
    | _ => none

/-- `WODDice.get_args`: match the pattern, fill defaults (`K`→8, `Q`→0,
`M`→10), then the five `isint` checks of the source (they cannot fire on a
matched code, every group being a digit run, but are mirrored in order). -/
def wodGetArgs (code : String) : Except DiceError (Nat × Nat × Nat × Nat × Nat) :=
  match wodMatch (pyUpper code) with
  | none => .error (.syn invalidMsg)
  | some (c, a, k, q, m) =>
    let sl := k.getD "8"
    let slm := q.getD "0"
    let sides := m.getD "10"
    if !isint c then .error (valErrS countInvalidMsg c)
    else if !isint a then .error (valErrS addLineInvalidMsg a)
    else if !isint sl then .error (valErrS successLineInvalidMsg sl)
    else if !isint slm then .error (valErrS successLineInvalidMsg slm)
    else if !isint sides then .error (valErrS sidesInvalidMsg sides)
    else .ok (digitsToNat c, digitsToNat a, digitsToNat sl, digitsToNat slm, digitsToNat sides)

/-- `WODDice.__init__`: `get_args` then the range checks (count, sides ≥ 1,
sides ≠ 1, and nonzero add-line inside `[2, sides]`), in source order. -/
def parseWOD (cfg : DiceConfig) (code : String) : Except DiceError WODSpec :=
  match wodGetArgs code with
  | .error e => .error e
  | .ok (count, add_line, sl, slm, sides) =>
    if count < 1 ∨ count > cfg.max_dice_count then
      .error (valErrN (i18nMsgMax "dice.message.error.value.count.out_of_range"
        cfg.max_dice_count) count)
    else if sides < 1 then .error (valErrN sidesOutMsg sides)
    else if sides = 1 then .error (.value sidesD1Msg none)
    else if add_line ≠ 0 ∧ (add_line < 2 ∨ add_line > sides) then
      .error (valErrN (i18nMsgMax "dice.message.error.value.add_line.out_of_range" sides)
        add_line)
    else .ok ⟨code, count, add_line, sl, slm, sides⟩

/-- Success test for one die: `success_line and success_line <= v`, or
`success_line_max and success_line_max >= v` (Python truthiness = nonzero). -/
def wodSucc (sp : WODSpec) (v : Nat) : Bool :=
  (sp.success_line != 0 && decide (sp.success_line ≤ v)) ||
    (sp.success_line_max != 0 && decide (v ≤ sp.success_line_max))

/-- Explosion test for one die: `if add_line:` then `v >= add_line`. -/
def wodExceed (sp : WODSpec) (v : Nat) : Bool :=
  sp.add_line != 0 && decide (sp.add_line ≤ v)

/-- Trace fragment for one die: exploded dice in angle brackets, successes
starred. -/
def wodItemStr (cfg : DiceConfig) (sp : WODSpec) (v : Nat) : String :=
  let f := fmt_num cfg (v : Int)
  let star := if wodSucc sp v then "*" else ""
  if wodExceed sp v then "<" ++ f ++ star ++ ">" else f ++ star

/-- The `while dice_count:` explosion loop shared in shape by `WODDice.roll`
and `DXDice.roll`, with explicit fuel: each round draws `n` dice at the
stream cursor, and the dice satisfying `p` each contribute one die to the
next round.  Returns the list of rounds' draw lists (empty once `n = 0`);
`none` means the fuel ran out before the loop exited. -/
def explodeRounds (p : Nat → Bool) (s : RSource) :
    Nat → Nat → Nat → Option (List (List Nat))
  | _, 0, _ => some []
  | 0, _ + 1, _ => none
  | fuel + 1, n + 1, c =>
    let vals := (List.range (n + 1)).map (fun i => s (c + i))
    (explodeRounds p s fuel (vals.countP p) (c + (n + 1))).map (vals :: ·)

/-- Total number of draws the explosion loop consumed. -/
def roundsConsumed (rl : List (List Nat)) : Nat := (rl.map List.length).sum

/-- Cumulative success count over all rounds (`success_count` in the code). -/
def wodSuccessCount (sp : WODSpec) (rl : List (List Nat)) : Nat :=
  (rl.map (fun vals => vals.countP (wodSucc sp))).sum

/-- The concatenated `"{...}, "` round strings of the `WODDice` trace. -/
def wodBuffer (cfg : DiceConfig) (sp : WODSpec) (rl : List (List Nat)) : String :=
  String.join (rl.map (fun vals =>
    "\x7b" ++ String.intercalate ", " (vals.map (wodItemStr cfg sp)) ++ "\x7d, "))

/-- The trace assembled by `WODDice.roll` before the length check: round
strings inside `=[...]` with the trailing `", "` stripped, or the placeholder
bracket when `count >= MAX_OUTPUT_CNT`. -/
def wodOutput (cfg : DiceConfig) (sp : WODSpec) (rl : List (List Nat)) : String :=
  let ob := ("=[" ++ wodBuffer cfg sp rl).dropRight 2 ++ "]"
  let ob :=
    if sp.count ≥ cfg.max_output_cnt then "=[" ++ i18nTooLongItems sp.count ++ "]" else ob
  sp.code ++ ob ++ "=" ++ fmt_num cfg (wodSuccessCount sp rl : Int) true

/-- `WODDice.roll`: run the explosion loop from `count` dice at cursor 0; the
result is the cumulative success count. -/
def wodRoll (cfg : DiceConfig) (sp : WODSpec) (s : RSource) (fuel : Nat) :
    Option (Outcome × Nat) :=
  (explodeRounds (wodExceed sp) s fuel sp.count 0).map (fun rl =>
    (⟨(wodSuccessCount sp rl : Int), lenTrunc cfg (wodOutput cfg sp rl)⟩,
      roundsConsumed rl))

/-- Construct-then-roll for an exploding-pool item; `none` only when the
round loop runs out of fuel. -/
def evalWOD (cfg : DiceConfig) (code : String) (s : RSource) (fuel : Nat) :
    Option (Except DiceError Outcome × Nat) :=
  match parseWOD cfg code with
  | .error e => some (.error e, 0)
  | .ok sp => (wodRoll cfg sp s fuel).map (fun t => (.ok t.1, t.2))

/-! ## Double-cross pool (`DXDice`) -/

/-- Validated parameters of a `DXDice` item. -/
structure DXSpec where
  code : String
  count : Nat
  add_line : Nat
  sides : Nat
deriving Repr, DecidableEq

/-- Match of `(\d+)C(\d+)(?:M(\d+))?` against the upper-cased code. -/
def dxMatch (dc : String) : Option (String × String × Option String) :=
  let (d1, r1) := spanDigits dc.toList
  if d1.isEmpty then none
  else
    match r1 with
    | 'C' :: r2 =>
      let (d2, r3) := spanDigits r2
      if d2.isEmpty then none
      else
        let (m, _) := optGroup 'M' r3
        some (String.mk d1, String.mk d2, m)
    | _ => none

/-- `DXDice.get_args`: match the pattern, default sides 10, mirrored `isint`
checks. -/
def dxGetArgs (code : String) : Except DiceError (Nat × Nat × Nat) :=
  match dxMatch (pyUpper code) with
  | none => .error (.syn invalidMsg)
  | some (c, a, m) =>
    let sides := m.getD "10"
    if !isint c then .error (valErrS countInvalidMsg c)
    else if !isint a then .error (valErrS addLineInvalidMsg a)
    else if !isint sides then .error (valErrS sidesInvalidMsg sides)
    else .ok (digitsToNat c, digitsToNat a, digitsToNat sides)

/-- `DXDice.__init__`: `get_args` then range checks; the add-line check is
unconditional here (`add_line < 2 or add_line > sides`). -/
def parseDX (cfg : DiceConfig) (code : String) : Except DiceError DXSpec :=
  match dxGetArgs code with
  | .error e => .error e
  | .ok (count, add_line, sides) =>
    if count < 1 ∨ count > cfg.max_dice_count then
      .error (valErrN (i18nMsgMax "dice.message.error.value.count.out_of_range"
        cfg.max_dice_count) count)
    else if sides < 1 then .error (valErrN sidesOutMsg sides)
    else if sides = 1 then .error (.value sidesD1Msg none)
    else if add_line < 2 ∨ add_line > sides then
      .error (valErrN (i18nMsgMax "dice.message.error.value.add_line.out_of_range" sides)
        add_line)
    else .ok ⟨code, count, add_line, sides⟩

/-- Explosion test of `DXDice.roll`: `dice_results[i] >= add_line`. -/
def dxExceed (sp : DXSpec) (v : Nat) : Bool := decide (sp.add_line ≤ v)

/-- Trace fragment for one double-cross die. -/
def dxItemStr (cfg : DiceConfig) (sp : DXSpec) (v : Nat) : String :=
  let f := fmt_num cfg (v : Int)
  if dxExceed sp v then "<" ++ f ++ ">" else f

/-- The `DXDice` result: `(dice_rounds - 1) * sides + max(dice_results)`,
`dice_results` being the draws of the round during which the loop exited
(the last element of the round list). -/
def dxResultVal (sp : DXSpec) (rl : List (List Nat)) : Int :=
  ((rl.length - 1) * sp.sides + listMax (rl.getLastD []) : Nat)

/-- The concatenated `"{...}, "` round strings of the `DXDice` trace. -/
def dxBuffer (cfg : DiceConfig) (sp : DXSpec) (rl : List (List Nat)) : String :=
  String.join (rl.map (fun vals =>
    "\x7b" ++ String.intercalate ", " (vals.map (dxItemStr cfg sp)) ++ "\x7d, "))

/-- The trace assembled by `DXDice.roll` before the length check. -/
def dxOutput (cfg : DiceConfig) (sp : DXSpec) (rl : List (List Nat)) : String :=
  let ob := ("=[" ++ dxBuffer cfg sp rl).dropRight 2 ++ "]"
  let ob :=
    if sp.count ≥ cfg.max_output_cnt then "=[" ++ i18nTooLongItems sp.count ++ "]" else ob
  sp.code ++ ob ++ "=" ++ fmt_num cfg (dxResultVal sp rl) true

/-- `DXDice.roll`: run the explosion loop (explosion test `v >= add_line`,
unconditional); the result rewards chain length and the best final value. -/
def dxRoll (cfg : DiceConfig) (sp : DXSpec) (s : RSource) (fuel : Nat) :
    Option (Outcome × Nat) :=
  (explodeRounds (dxExceed sp) s fuel sp.count 0).map (fun rl =>
    (⟨dxResultVal sp rl, lenTrunc cfg (dxOutput cfg sp rl)⟩, roundsConsumed rl))

/-- Construct-then-roll for a double-cross item. -/
def evalDX (cfg : DiceConfig) (code : String) (s : RSource) (fuel : Nat) :
    Option (Except DiceError Outcome × Nat) :=
  match parseDX cfg code with
  | .error e => some (.error e, 0)
  | .ok sp => (dxRoll cfg sp s fuel).map (fun t => (.ok t.1, t.2))

/-- Written from the spec claim's words, for comparison with the source's
`bpCandidates`: "int(str(d_i) + str(tens digit of b))", i.e. the drawn digit
prefixed to the TENS digit of the base roll (the source uses `b % 10`, the
units digit). -/
def claimTensCandidate (base d : Nat) : Nat := 10 * d + base / 10 % 10

/-! ## Basic list lemmas -/

theorem list_length_le_sum {l : List Nat} (h : ∀ x ∈ l, 1 ≤ x) :
    l.length ≤ l.sum := by
  induction l with
  | nil => simp
  | cons a t ih =>
    have ha := h a (by simp)
    have ht := ih (fun x hx => h x (by simp [hx]))
    simp only [List.length_cons, List.sum_cons]
    omega

theorem list_sum_le_mul {l : List Nat} {M : Nat} (h : ∀ x ∈ l, x ≤ M) :
    l.sum ≤ l.length * M := by
  induction l with
  | nil => simp
  | cons a t ih =>
    have ha := h a (by simp)
    have ht := ih (fun x hx => h x (by simp [hx]))
    simp only [List.length_cons, List.sum_cons, Nat.succ_mul]
    omega

theorem foldl_max_init_le (x : Nat) (xs : List Nat) : x ≤ xs.foldl max x := by
  induction xs generalizing x with
  | nil => simp
  | cons y ys ih => exact le_trans (le_max_left x y) (ih (max x y))

theorem foldl_max_le_of_mem {xs : List Nat} {y : Nat} (h : y ∈ xs) (x : Nat) :
    y ≤ xs.foldl max x := by
  induction xs generalizing x with
  | nil => cases h
  | cons z zs ih =>
    rcases List.mem_cons.mp h with rfl | hy
    · exact le_trans (le_max_right x y) (foldl_max_init_le _ zs)
    · exact ih hy (max x z)

theorem foldl_max_mem (x : Nat) (xs : List Nat) : xs.foldl max x ∈ x :: xs := by
  induction xs generalizing x with
  | nil => simp
  | cons y ys ih =>
    have h := ih (max x y)
    rcases List.mem_cons.mp h with hh | hh
    · rw [List.foldl_cons, hh]
      rcases max_choice x y with h2 | h2 <;> rw [h2] <;> simp
    · simp [List.foldl_cons, List.mem_cons.mpr (Or.inr (List.mem_cons.mpr (Or.inr hh)))]

theorem le_listMax {l : List Nat} {x : Nat} (h : x ∈ l) : x ≤ listMax l := by
  cases l with
  | nil => cases h
  | cons a t =>
    unfold listMax
    rcases List.mem_cons.mp h with rfl | hx
    · exact foldl_max_init_le x t
    · exact foldl_max_le_of_mem hx a

theorem listMax_mem {l : List Nat} (h : l ≠ []) : listMax l ∈ l := by
  cases l with
  | nil => exact absurd rfl h
  | cons a t => exact foldl_max_mem a t

theorem foldl_min_le_init (x : Nat) (xs : List Nat) : xs.foldl min x ≤ x := by
  induction xs generalizing x with
  | nil => simp
  | cons y ys ih => exact le_trans (ih (min x y)) (min_le_left x y)

theorem foldl_min_le_of_mem {xs : List Nat} {y : Nat} (h : y ∈ xs) (x : Nat) :
    xs.foldl min x ≤ y := by
  induction xs generalizing x with
  | nil => cases h
  | cons z zs ih =>
    rcases List.mem_cons.mp h with rfl | hy
    · exact le_trans (foldl_min_le_init _ zs) (min_le_right x y)
    · exact ih hy (min x z)

theorem foldl_min_mem (x : Nat) (xs : List Nat) : xs.foldl min x ∈ x :: xs := by
  induction xs generalizing x with
  | nil => simp
  | cons y ys ih =>
    have h := ih (min x y)
    rcases List.mem_cons.mp h with hh | hh
    · rw [List.foldl_cons, hh]
      rcases min_choice x y with h2 | h2 <;> rw [h2] <;> simp
    · simp [List.foldl_cons, List.mem_cons.mpr (Or.inr (List.mem_cons.mpr (Or.inr hh)))]

theorem listMin_le {l : List Nat} {x : Nat} (h : x ∈ l) : listMin l ≤ x := by
  cases l with
  | nil => cases h
  | cons a t =>
    unfold listMin
    rcases List.mem_cons.mp h with rfl | hx
    · exact foldl_min_le_init x t
    · exact foldl_min_le_of_mem hx a

theorem listMin_mem {l : List Nat} (h : l ≠ []) : listMin l ∈ l := by
  cases l with
  | nil => exact absurd rfl h
  | cons a t => exact foldl_min_mem a t

/-- Numeric-result bounds for the standard roll without keep/drop: the sum of
`draws` values in `[1, M]`, or the single value itself. -/
theorem diceResultVal_bounds {sp : DiceSpec} {draws : List Nat} {M : Nat}
    (hadv : sp.adv = 0) (hne : draws ≠ [])
    (hmem : ∀ x ∈ draws, 1 ≤ x ∧ x ≤ M) :
    (draws.length : Int) ≤ diceResultVal sp draws ∧
      diceResultVal sp draws ≤ (draws.length * M : Nat) := by
  have hres : diceResults sp draws = draws := by
    unfold diceResults
    simp [hadv]
  unfold diceResultVal
  rw [hres]
  by_cases hlen : draws.length > 1
  · rw [if_pos hlen]
    have h1 := list_length_le_sum (fun x hx => (hmem x hx).1)
    have h2 := list_sum_le_mul (M := M) (fun x hx => (hmem x hx).2)
    constructor <;> exact_mod_cast ‹_›
  · rw [if_neg hlen]
    have h1 : draws.length = 1 := by
      cases draws with
      | nil => exact absurd rfl hne
      | cons a t => simp only [List.length_cons] at hlen ⊢; omega
    obtain ⟨x, rfl⟩ := List.length_eq_one.mp h1
    have hx := hmem x (by simp)
    simp only [List.headD_cons, List.length_cons, List.length_nil, Nat.zero_add, Nat.one_mul]
    constructor
    · exact_mod_cast hx.1
    · exact_mod_cast hx.2

/-! ## Claim theorems -/

/-- C1: for every notation string and every variant, syntax and value errors
(illegal character, count out of `[1, MAX_DICE_COUNT]`, sides < 2, keep/drop
exceeding count, add-line outside `[2, sides]`) arise during construction,
which consumes no randomness: a failing input evaluates to that error with
zero draws consumed, for every random source; successful construction
establishes the range invariants; `"XD6"` is a syntax error and `"1D1"` a
value error. -/
theorem C1_fail_fast :
    (∀ cfg code e s, parseDice cfg code = .error e → evalStd cfg code s = (.error e, 0)) ∧
    (∀ cfg code e f, parseFudge cfg code = .error e → evalFudge cfg code f = (.error e, 0)) ∧
    (∀ cfg code e s, parseBP cfg code = .error e → evalBP cfg code s = (.error e, 0)) ∧
    (∀ cfg code e s fuel, parseWOD cfg code = .error e →
      evalWOD cfg code s fuel = some (.error e, 0)) ∧
    (∀ cfg code e s fuel, parseDX cfg code = .error e →
      evalDX cfg code s fuel = some (.error e, 0)) ∧
    (∀ cfg code sp, parseDice cfg code = .ok sp →
      1 ≤ sp.count ∧ sp.count ≤ cfg.max_dice_count ∧ 2 ≤ sp.sides ∧ sp.adv ≤ sp.count) ∧
    (∀ cfg code sp, parseFudge cfg code = .ok sp →
      1 ≤ sp.count ∧ sp.count ≤ cfg.max_dice_count) ∧
    (∀ cfg code sp, parseBP cfg code = .ok sp →
      1 ≤ sp.count ∧ sp.count ≤ cfg.max_dice_count) ∧
    (∀ cfg code sp, parseWOD cfg code = .ok sp →
      1 ≤ sp.count ∧ sp.count ≤ cfg.max_dice_count ∧ 2 ≤ sp.sides ∧
        (sp.add_line = 0 ∨ (2 ≤ sp.add_line ∧ sp.add_line ≤ sp.sides))) ∧
    (∀ cfg code sp, parseDX cfg code = .ok sp →
      1 ≤ sp.count ∧ sp.count ≤ cfg.max_dice_count ∧ 2 ≤ sp.sides ∧
        2 ≤ sp.add_line ∧ sp.add_line ≤ sp.sides) ∧
    parseDice defaultCfg "XD6" = .error (.syn invalidMsg) ∧
    parseDice defaultCfg "1D1" = .error (.value sidesD1Msg none) := by
  refine ⟨?_, ?_, ?_, ?_, ?_, ?_, ?_, ?_, ?_, ?_, by decide, by decide⟩
  · intro cfg code e s h
    unfold evalStd
    rw [h]
  · intro cfg code e f h
    unfold evalFudge
    rw [h]
  · intro cfg code e s h
    unfold evalBP
    rw [h]
  · intro cfg code e s fuel h
    unfold evalWOD
    rw [h]
  · intro cfg code e s fuel h
    unfold evalDX
    rw [h]
  · intro cfg code sp h
    unfold parseDice at h
    cases hg : diceGetArgs code with
    | error e => rw [hg] at h; simp at h
    | ok t =>
      obtain ⟨count, sides, adv, pos⟩ := t
      rw [hg] at h
      dsimp only at h
      split_ifs at h with h1 h2 h3 h4 <;> try simp at h
      subst h
      dsimp only
      omega
  · intro cfg code sp h
    unfold parseFudge at h
    cases hg : fudgeGetArgs code with
    | error e => rw [hg] at h; simp at h
    | ok count =>
      rw [hg] at h
      dsimp only at h
      split_ifs at h with h1 <;> try simp at h
      subst h
      dsimp only
      omega
  · intro cfg code sp h
    unfold parseBP at h
    cases hg : bpGetArgs code with
    | error e => rw [hg] at h; simp at h
    | ok t =>
      obtain ⟨count, pos⟩ := t
      rw [hg] at h
      dsimp only at h
      split_ifs at h with h1 <;> try simp at h
      subst h
      dsimp only
      omega
  · intro cfg code sp h
    unfold parseWOD at h
    cases hg : wodGetArgs code with
    | error e => rw [hg] at h; simp at h
    | ok t =>
      obtain ⟨count, add_line, sl, slm, sides⟩ := t
      rw [hg] at h
      dsimp only at h
      split_ifs at h with h1 h2 h3 h4 <;> try simp at h
      subst h
      dsimp only
      omega
  · intro cfg code sp h
    unfold parseDX at h
    cases hg : dxGetArgs code with
    | error e => rw [hg] at h; simp at h
    | ok t =>
      obtain ⟨count, add_line, sides⟩ := t
      rw [hg] at h
      dsimp only at h
      split_ifs at h with h1 h2 h3 h4 <;> try simp at h
      subst h
      dsimp only
      omega

/-- Witness for C1 at the claim's own inputs: `"XD6"` and `"1D1"` evaluate to
their construction errors with zero draws consumed, for a concrete stream. -/
theorem C1_fail_fast_witness :
    evalStd defaultCfg "XD6" (fun _ => 0) = (.error (.syn invalidMsg), 0) ∧
    evalStd defaultCfg "1D1" (fun _ => 0) = (.error (.value sidesD1Msg none), 0) := by
  have h := C1_fail_fast
  exact ⟨h.1 defaultCfg "XD6" _ _ (by decide), h.1 defaultCfg "1D1" _ _ (by decide)⟩

/-- C2: for a standard pool without keep/drop and draws in `[1, sides]`, the
result lies in `[count, count * sides]`; and `"2D6"` against the draw
sequence `[3, 5]` yields result 8 with detail exactly `"2D6=[3+5]=8"`. -/
theorem C2_standard_pool :
    (∀ (cfg : DiceConfig) (sp : DiceSpec) (s : RSource),
      sp.adv = 0 → 1 ≤ sp.count →
      (∀ k, k < sp.count → 1 ≤ s k ∧ s k ≤ sp.sides) →
      (sp.count : Int) ≤ (diceRoll cfg sp s).result ∧
        (diceRoll cfg sp s).result ≤ ((sp.count * sp.sides : Nat) : Int)) ∧
    evalStd defaultCfg "2D6" (fun k => [3, 5].getD k 0) =
      (.ok ⟨8, "2D6=[3+5]=8"⟩, 2) := by
  constructor
  · intro cfg sp s hadv hcount hrange
    have hne : diceDraws sp s ≠ [] := by
      unfold diceDraws
      simp only [ne_eq, List.map_eq_nil_iff, List.range_eq_nil]
      omega
    have hmem : ∀ x ∈ diceDraws sp s, 1 ≤ x ∧ x ≤ sp.sides := by
      intro x hx
      unfold diceDraws at hx
      rcases List.mem_map.mp hx with ⟨k, hk, rfl⟩
      exact hrange k (List.mem_range.mp hk)
    have hlen : (diceDraws sp s).length = sp.count := by
      unfold diceDraws
      simp
    have h := diceResultVal_bounds hadv hne hmem
    rw [hlen] at h
    exact h
  · decide

/-- Witness for C2's range part at `"2D6"` with draws `[3, 5]`. -/
theorem C2_standard_pool_witness :
    (2 : Int) ≤ (diceRoll defaultCfg ⟨"2D6", 2, 6, 0, 0⟩ (fun k => [3, 5].getD k 0)).result ∧
      (diceRoll defaultCfg ⟨"2D6", 2, 6, 0, 0⟩ (fun k => [3, 5].getD k 0)).result ≤
        ((2 * 6 : Nat) : Int) := by
  have h := C2_standard_pool.1 defaultCfg ⟨"2D6", 2, 6, 0, 0⟩
    (fun k => [3, 5].getD k 0) rfl (by decide) ?_
  · exact ⟨h.1, h.2⟩
  · intro k hk
    interval_cases k <;> decide

/-- C9: `fmt_num` renders scientific notation exactly when the exponent
threshold is positive and the magnitude reaches `10^threshold` (parenthesized
exactly when `sep` is off, i.e. outside the trailing `=result` position), and
plain decimal otherwise; at the default threshold 9, `10^9` is scientific and
`10^8` plain. -/
theorem C9_fmt_num :
    (∀ (cfg : DiceConfig) (n : Int) (sep : Bool),
      (0 < cfg.max_output_exp → 10 ^ cfg.max_output_exp ≤ n.natAbs →
        fmt_num cfg n sep =
          if sep then sciString n cfg.max_output_exp
          else "(" ++ sciString n cfg.max_output_exp ++ ")") ∧
      (¬ (0 < cfg.max_output_exp ∧ 10 ^ cfg.max_output_exp ≤ n.natAbs) →
        fmt_num cfg n sep = toString n)) ∧
    fmt_num defaultCfg (10 ^ 9) false = "(1.000000000e+09)" ∧
    fmt_num defaultCfg (10 ^ 9) true = "1.000000000e+09" ∧
    fmt_num defaultCfg (10 ^ 8) false = "100000000" ∧
    fmt_num defaultCfg (-(10 ^ 9)) false = "(-1.000000000e+09)" := by
  refine ⟨?_, by decide, by decide, by decide, by decide⟩
  intro cfg n sep
  constructor
  · intro h1 h2
    unfold fmt_num
    rw [if_pos ⟨h1, h2⟩]
    cases sep <;> simp
  · intro h
    unfold fmt_num
    rw [if_neg h]

/-- Witness for C9's conditional parts at `n = 10^9` and `n = 10^8` with the
default configuration. -/
theorem C9_fmt_num_witness :
    fmt_num defaultCfg (10 ^ 9) false =
      "(" ++ sciString (10 ^ 9) defaultCfg.max_output_exp ++ ")" ∧
    fmt_num defaultCfg (10 ^ 8) true = toString ((10 : Int) ^ 8) := by
  have h1 := ((C9_fmt_num.1 defaultCfg (10 ^ 9) false).1 (by decide) (by decide))
  have h2 := ((C9_fmt_num.1 defaultCfg (10 ^ 8) true).2 (by decide))
  exact ⟨by simpa using h1, h2⟩

/-- C10: evaluation is deterministic in the draw sequence — two sources
agreeing on the consumed draws (the first `count` for standard and fudge,
the base plus `count` digits for bonus/punish, everywhere for the unbounded
explosion loops) give identical outcomes, result and detail alike. -/
theorem C10_deterministic :
    (∀ cfg (sp : DiceSpec) (s₁ s₂ : RSource), (∀ k, k < sp.count → s₁ k = s₂ k) →
      diceRoll cfg sp s₁ = diceRoll cfg sp s₂) ∧
    (∀ cfg (sp : FudgeSpec) (f₁ f₂ : FSource), (∀ k, k < sp.count → f₁ k = f₂ k) →
      fudgeRoll cfg sp f₁ = fudgeRoll cfg sp f₂) ∧
    (∀ cfg (sp : BPSpec) (s₁ s₂ : RSource), (∀ k, k < sp.count + 1 → s₁ k = s₂ k) →
      bpRoll cfg sp s₁ = bpRoll cfg sp s₂) ∧
    (∀ cfg (sp : WODSpec) (s₁ s₂ : RSource) fuel, (∀ k, s₁ k = s₂ k) →
      wodRoll cfg sp s₁ fuel = wodRoll cfg sp s₂ fuel) ∧
    (∀ cfg (sp : DXSpec) (s₁ s₂ : RSource) fuel, (∀ k, s₁ k = s₂ k) →
      dxRoll cfg sp s₁ fuel = dxRoll cfg sp s₂ fuel) := by
  refine ⟨?_, ?_, ?_, ?_, ?_⟩
  · intro cfg sp s₁ s₂ h
    have hd : diceDraws sp s₁ = diceDraws sp s₂ := by
      unfold diceDraws
      exact List.map_congr_left (fun k hk => h k (List.mem_range.mp hk))
    unfold diceRoll
    rw [hd]
  · intro cfg sp f₁ f₂ h
    have hd : fudgePicks sp f₁ = fudgePicks sp f₂ := by
      unfold fudgePicks
      exact List.map_congr_left (fun k hk => by rw [h k (List.mem_range.mp hk)])
    unfold fudgeRoll
    rw [hd]
  · intro cfg sp s₁ s₂ h
    have hb : s₁ 0 = s₂ 0 := h 0 (by omega)
    have hd : bpDigits sp s₁ = bpDigits sp s₂ := by
      unfold bpDigits
      exact List.map_congr_left (fun k hk => h (k + 1) (by
        have := List.mem_range.mp hk
        omega))
    unfold bpRoll
    rw [hb, hd]
  · intro cfg sp s₁ s₂ fuel h
    rw [funext h]
  · intro cfg sp s₁ s₂ fuel h
    rw [funext h]

/-- Witness for C10 at `"2D6"`: two streams equal on the two consumed draws
but different beyond them give identical outcomes. -/
theorem C10_deterministic_witness :
    diceRoll defaultCfg ⟨"2D6", 2, 6, 0, 0⟩ (fun k => [3, 5].getD k 0) =
      diceRoll defaultCfg ⟨"2D6", 2, 6, 0, 0⟩ (fun k => [3, 5].getD k 7) := by
  refine C10_deterministic.1 defaultCfg ⟨"2D6", 2, 6, 0, 0⟩ _ _ ?_
  intro k hk
  interval_cases k <;> decide

/-- C7: the trace-length truncation step replaces the whole assembled trace
with the generic placeholder exactly when it exceeds the cap, and the numeric
result is never affected by it — each variant's result is invariant under any
change of the maximum-trace-length configuration. -/
theorem C7_length_truncation_frame :
    (∀ cfg (sp : DiceSpec) (s : RSource),
      (diceRoll cfg sp s).detail = lenTrunc cfg (diceOutput cfg sp (diceDraws sp s)) ∧
      ∀ L, (diceRoll { cfg with max_output_len := L } sp s).result =
        (diceRoll cfg sp s).result) ∧
    (∀ cfg (sp : FudgeSpec) (f : FSource),
      (fudgeRoll cfg sp f).detail = lenTrunc cfg (fudgeOutput cfg sp (fudgePicks sp f)) ∧
      ∀ L, (fudgeRoll { cfg with max_output_len := L } sp f).result =
        (fudgeRoll cfg sp f).result) ∧
    (∀ cfg (sp : BPSpec) (s : RSource),
      (bpRoll cfg sp s).detail = lenTrunc cfg (bpOutput cfg sp (s 0) (bpDigits sp s)) ∧
      ∀ L, (bpRoll { cfg with max_output_len := L } sp s).result =
        (bpRoll cfg sp s).result) ∧
    (∀ cfg (sp : WODSpec) (s : RSource) fuel,
      (wodRoll cfg sp s fuel).map (fun t => t.1.detail) =
        (explodeRounds (wodExceed sp) s fuel sp.count 0).map
          (fun rl => lenTrunc cfg (wodOutput cfg sp rl)) ∧
      ∀ L, (wodRoll { cfg with max_output_len := L } sp s fuel).map (fun t => t.1.result) =
        (wodRoll cfg sp s fuel).map (fun t => t.1.result)) ∧
    (∀ cfg (sp : DXSpec) (s : RSource) fuel,
      (dxRoll cfg sp s fuel).map (fun t => t.1.detail) =
        (explodeRounds (dxExceed sp) s fuel sp.count 0).map
          (fun rl => lenTrunc cfg (dxOutput cfg sp rl)) ∧
      ∀ L, (dxRoll { cfg with max_output_len := L } sp s fuel).map (fun t => t.1.result) =
        (dxRoll cfg sp s fuel).map (fun t => t.1.result)) := by
  refine ⟨fun cfg sp s => ⟨rfl, fun L => rfl⟩, fun cfg sp f => ⟨rfl, fun L => rfl⟩,
    fun cfg sp s => ⟨rfl, fun L => rfl⟩, fun cfg sp s fuel => ⟨?_, fun L => ?_⟩,
    fun cfg sp s fuel => ⟨?_, fun L => ?_⟩⟩
  · unfold wodRoll
    cases explodeRounds (wodExceed sp) s fuel sp.count 0 <;> rfl
  · unfold wodRoll
    cases explodeRounds (wodExceed sp) s fuel sp.count 0 <;> rfl
  · unfold dxRoll
    cases explodeRounds (dxExceed sp) s fuel sp.count 0 <;> rfl
  · unfold dxRoll
    cases explodeRounds (dxExceed sp) s fuel sp.count 0 <;> rfl

/-! ## Lemmas about the explosion loop -/

theorem explode_zero (p : Nat → Bool) (s : RSource) (fuel c : Nat) :
    explodeRounds p s fuel 0 c = some [] := by
  cases fuel <;> rfl

/-- With one die or more, a successful loop run has at least one round. -/
theorem explode_ne_nil {p : Nat → Bool} {s : RSource} {fuel n c : Nat}
    {rl : List (List Nat)} (h : explodeRounds p s fuel (n + 1) c = some rl) :
    rl ≠ [] := by
  cases fuel with
  | zero => simp [explodeRounds] at h
  | succ fuel =>
    unfold explodeRounds at h
    dsimp only at h
    cases hsub : explodeRounds p s fuel
        (((List.range (n + 1)).map (fun i => s (c + i))).countP p) (c + (n + 1)) with
    | none => rw [hsub] at h; exact absurd h (by simp)
    | some rl' =>
      simp only [hsub, Option.map_some', Option.some_inj] at h
      subst h
      simp

/-- Every round a successful run produces is a nonempty list of stream
values; with draws bounded below by 1, every value is at least 1. -/
theorem explode_rounds_elems {p : Nat → Bool} {s : RSource} (hs : ∀ k, 1 ≤ s k) :
    ∀ fuel n c rl, explodeRounds p s fuel n c = some rl →
      ∀ l ∈ rl, l ≠ [] ∧ ∀ v ∈ l, 1 ≤ v := by
  intro fuel
  induction fuel with
  | zero =>
    intro n c rl h
    cases n with
    | zero =>
      rw [explode_zero] at h
      simp only [Option.some_inj] at h
      subst h
      simp
    | succ n => simp [explodeRounds] at h
  | succ fuel ih =>
    intro n c rl h
    cases n with
    | zero =>
      rw [explode_zero] at h
      simp only [Option.some_inj] at h
      subst h
      simp
    | succ n =>
      unfold explodeRounds at h
      dsimp only at h
      cases hsub : explodeRounds p s fuel
          (((List.range (n + 1)).map (fun i => s (c + i))).countP p) (c + (n + 1)) with
      | none => rw [hsub] at h; exact absurd h (by simp)
      | some rl' =>
        simp only [hsub, Option.map_some', Option.some_inj] at h
        subst h
        intro l hl
        rcases List.mem_cons.mp hl with rfl | hl'
        · constructor
          · simp
          · intro v hv
            rcases List.mem_map.mp hv with ⟨i, _, rfl⟩
            exact hs (c + i)
        · exact ih _ _ _ hsub l hl'

/-- Once the stream position passes `N`, no die explodes; the loop then
finishes within `N - c + 2` rounds of fuel. -/
theorem explode_terminates_aux {p : Nat → Bool} {s : RSource} {N : Nat}
    (h : ∀ k, N ≤ k → p (s k) = false) :
    ∀ j n c, N ≤ c + j → (explodeRounds p s (j + 2) n c).isSome := by
  intro j
  induction j with
  | zero =>
    intro n c hNc
    cases n with
    | zero => rw [explode_zero]; rfl
    | succ n =>
      have hcount : ((List.range (n + 1)).map (fun i => s (c + i))).countP p = 0 := by
        apply List.countP_eq_zero.mpr
        intro v hv
        rcases List.mem_map.mp hv with ⟨i, _, rfl⟩
        simp [h (c + i) (by omega)]
      show (explodeRounds p s (1 + 1) (n + 1) c).isSome
      unfold explodeRounds
      dsimp only
      rw [hcount, explode_zero]
      rfl
  | succ j ih =>
    intro n c hNc
    cases n with
    | zero => rw [explode_zero]; rfl
    | succ n =>
      show (explodeRounds p s ((j + 2) + 1) (n + 1) c).isSome
      unfold explodeRounds
      dsimp only
      have hsub := ih (((List.range (n + 1)).map (fun i => s (c + i))).countP p)
        (c + (n + 1)) (by omega)
      cases hs2 : explodeRounds p s (j + 2)
          (((List.range (n + 1)).map (fun i => s (c + i))).countP p) (c + (n + 1)) with
      | none => rw [hs2] at hsub; simp at hsub
      | some rl => rfl

/-- Against a source whose every draw explodes, the loop never exits. -/
theorem explode_never_terminates {p : Nat → Bool} {s : RSource}
    (h : ∀ k, p (s k) = true) :
    ∀ fuel n c, explodeRounds p s fuel (n + 1) c = none := by
  intro fuel
  induction fuel with
  | zero => intro n c; rfl
  | succ fuel ih =>
    intro n c
    have hcount : ((List.range (n + 1)).map (fun i => s (c + i))).countP p = n + 1 := by
      rw [List.countP_eq_length.mpr (fun v hv => by
        rcases List.mem_map.mp hv with ⟨i, _, rfl⟩
        exact h (c + i))]
      simp
    unfold explodeRounds
    dsimp only
    rw [hcount, ih n (c + (n + 1))]
    rfl

theorem getLastD_mem {α : Type} {l : List α} (h : l ≠ []) (d : α) :
    l.getLastD d ∈ l := by
  induction l with
  | nil => exact absurd rfl h
  | cons a t ih =>
    cases t with
    | nil => simp
    | cons b t' =>
      have := ih (by simp)
      simp only [List.getLastD_cons] at this ⊢
      exact List.mem_cons.mpr (Or.inr this)

/-- C4 counterexample: `"1C10"` (add-line 10, ten sides) with a single draw
of 3 terminates in one round with result 3, which is below `sides = 10` —
refuting "this result is always >= sides". -/
theorem C4_counterexample :
    parseDX defaultCfg "1C10" = .ok ⟨"1C10", 1, 10, 10⟩ ∧
    evalDX defaultCfg "1C10" (fun _ => 3) 2 =
      some (.ok ⟨3, "1C10=[\x7b3\x7d]=3"⟩, 1) ∧
    ¬ ((10 : Int) ≤ 3) := by
  refine ⟨by decide, by decide, by decide⟩

/-- C4 (amended): a terminating double-cross evaluation with in-range draws
has result `(rounds - 1) * sides + max(final round draws)`; that result is
at least 1, and at least `sides` whenever more than one round occurred (the
original "always >= sides" fails for a single round, see the
counterexample). -/
theorem C4_dx_result_formula :
    ∀ cfg (sp : DXSpec) (s : RSource) fuel o cons,
      1 ≤ sp.count → (∀ k, 1 ≤ s k) →
      dxRoll cfg sp s fuel = some (o, cons) →
      ∃ rl, explodeRounds (dxExceed sp) s fuel sp.count 0 = some rl ∧ rl ≠ [] ∧
        o.result = (((rl.length - 1) * sp.sides + listMax (rl.getLastD []) : Nat) : Int) ∧
        1 ≤ o.result ∧
        (2 ≤ rl.length → (sp.sides : Int) ≤ o.result) := by
  intro cfg sp s fuel o cons hcount hs h
  unfold dxRoll at h
  cases hrl : explodeRounds (dxExceed sp) s fuel sp.count 0 with
  | none => rw [hrl] at h; exact absurd h (by simp)
  | some rl =>
    simp only [hrl, Option.map_some', Option.some_inj] at h
    injection h with h1 h2
    refine ⟨rl, rfl, ?_, ?_, ?_, ?_⟩
    · obtain ⟨m, hm⟩ : ∃ m, sp.count = m + 1 := ⟨sp.count - 1, by omega⟩
      rw [hm] at hrl
      exact explode_ne_nil hrl
    · rw [← h1]
      rfl
    · have hne : rl ≠ [] := by
        obtain ⟨m, hm⟩ : ∃ m, sp.count = m + 1 := ⟨sp.count - 1, by omega⟩
        rw [hm] at hrl
        exact explode_ne_nil hrl
      have hlast := getLastD_mem hne ([] : List Nat)
      obtain ⟨hne', hvals⟩ := explode_rounds_elems hs fuel sp.count 0 rl hrl _ hlast
      have hmax := hvals _ (listMax_mem hne')
      rw [← h1]
      show (1 : Int) ≤ ((dxResultVal sp rl : Int))
      unfold dxResultVal
      have : 1 ≤ (rl.length - 1) * sp.sides + listMax (rl.getLastD []) := by omega
      exact_mod_cast this
    · intro hlen
      rw [← h1]
      show ((sp.sides : Int)) ≤ ((dxResultVal sp rl : Int))
      unfold dxResultVal
      have hm : sp.sides ≤ (rl.length - 1) * sp.sides :=
        Nat.le_mul_of_pos_left _ (by omega)
      have : sp.sides ≤ (rl.length - 1) * sp.sides + listMax (rl.getLastD []) := by omega
      exact_mod_cast this

/-- Witness for C4's amended statement at `"3C8"`-like parameters: two dice,
add-line 2, draws all 10 for two rounds then low. -/
theorem C4_dx_result_formula_witness :
    ∃ rl, explodeRounds (dxExceed ⟨"1C2", 1, 2, 10⟩) (fun k => if k = 0 then 10 else 1) 3
        (DXSpec.count ⟨"1C2", 1, 2, 10⟩) 0 = some rl ∧ rl ≠ [] ∧
      (Outcome.result ⟨dxResultVal ⟨"1C2", 1, 2, 10⟩ [[10], [1]],
          lenTrunc defaultCfg (dxOutput defaultCfg ⟨"1C2", 1, 2, 10⟩ [[10], [1]])⟩) =
        (((rl.length - 1) * 10 + listMax (rl.getLastD []) : Nat) : Int) ∧
      1 ≤ (Outcome.result ⟨dxResultVal ⟨"1C2", 1, 2, 10⟩ [[10], [1]],
          lenTrunc defaultCfg (dxOutput defaultCfg ⟨"1C2", 1, 2, 10⟩ [[10], [1]])⟩) ∧
      (2 ≤ rl.length → ((10 : Nat) : Int) ≤
        (Outcome.result ⟨dxResultVal ⟨"1C2", 1, 2, 10⟩ [[10], [1]],
          lenTrunc defaultCfg (dxOutput defaultCfg ⟨"1C2", 1, 2, 10⟩ [[10], [1]])⟩)) := by
  have h := C4_dx_result_formula defaultCfg ⟨"1C2", 1, 2, 10⟩
    (fun k => if k = 0 then 10 else 1) 3
    ⟨dxResultVal ⟨"1C2", 1, 2, 10⟩ [[10], [1]],
      lenTrunc defaultCfg (dxOutput defaultCfg ⟨"1C2", 1, 2, 10⟩ [[10], [1]])⟩
    (roundsConsumed [[10], [1]]) (by decide)
    (fun k => by dsimp only; split <;> omega) (by decide)
  exact h

/-- C5 counterexample: the loop is NOT total over all in-range draw
sequences — `"1C2"` (add-line 2, ten sides) against the constant stream of
10s explodes every round and never terminates, at any fuel. -/
theorem C5_counterexample :
    ¬ ∃ fuel r, evalDX defaultCfg "1C2" (fun _ => 10) fuel = some r := by
  rintro ⟨fuel, r, h⟩
  have hp : parseDX defaultCfg "1C2" = .ok ⟨"1C2", 1, 2, 10⟩ := by decide
  unfold evalDX at h
  rw [hp] at h
  dsimp only at h
  unfold dxRoll at h
  have hnone : explodeRounds (dxExceed ⟨"1C2", 1, 2, 10⟩) (fun _ => 10) fuel 1 0 = none :=
    explode_never_terminates (p := dxExceed ⟨"1C2", 1, 2, 10⟩) (s := fun _ => 10)
      (fun k => rfl) fuel 0 0
  rw [hnone] at h
  exact absurd h (by simp)

/-- C5 (amended): the explosion loops of both pool variants terminate for
every source that stops producing exploding values from some position on (in
particular for any source that eventually stays below the add-line); totality
over ALL in-range sequences fails, see the counterexample. -/
theorem C5_explosion_terminates :
    (∀ cfg (sp : WODSpec) (s : RSource) N,
      (∀ k, N ≤ k → wodExceed sp (s k) = false) →
      ∃ fuel t, wodRoll cfg sp s fuel = some t) ∧
    (∀ cfg (sp : DXSpec) (s : RSource) N,
      (∀ k, N ≤ k → dxExceed sp (s k) = false) →
      ∃ fuel t, dxRoll cfg sp s fuel = some t) := by
  constructor
  · intro cfg sp s N h
    have hsome := explode_terminates_aux (p := wodExceed sp) h N sp.count 0 (by omega)
    obtain ⟨rl, hrl⟩ := Option.isSome_iff_exists.mp hsome
    refine ⟨N + 2, (⟨(wodSuccessCount sp rl : Int), lenTrunc cfg (wodOutput cfg sp rl)⟩,
      roundsConsumed rl), ?_⟩
    unfold wodRoll
    rw [hrl]
    rfl
  · intro cfg sp s N h
    have hsome := explode_terminates_aux (p := dxExceed sp) h N sp.count 0 (by omega)
    obtain ⟨rl, hrl⟩ := Option.isSome_iff_exists.mp hsome
    refine ⟨N + 2, (⟨dxResultVal sp rl, lenTrunc cfg (dxOutput cfg sp rl)⟩,
      roundsConsumed rl), ?_⟩
    unfold dxRoll
    rw [hrl]
    rfl

/-- Witness for C5's amended statement: a constant low stream terminates both
loops. -/
theorem C5_explosion_terminates_witness :
    (∃ fuel t, wodRoll defaultCfg ⟨"1A2", 1, 2, 8, 0, 10⟩ (fun _ => 1) fuel = some t) ∧
    (∃ fuel t, dxRoll defaultCfg ⟨"1C2", 1, 2, 10⟩ (fun _ => 1) fuel = some t) := by
  constructor
  · exact C5_explosion_terminates.1 defaultCfg ⟨"1A2", 1, 2, 8, 0, 10⟩ (fun _ => 1) 0
      (fun k hk => rfl)
  · exact C5_explosion_terminates.2 defaultCfg ⟨"1C2", 1, 2, 10⟩ (fun _ => 1) 0
      (fun k hk => rfl)

/-- Lowering a POSITIVE success line to a positive value only adds
successes; the `K0` case disables the whole lower-bound test instead
(Python truthiness), which is what breaks the claim at 0. -/
theorem wodSucc_mono {sp : WODSpec} {s₂ : Nat} (h1 : 1 ≤ s₂)
    (h2 : s₂ ≤ sp.success_line) (v : Nat) (hv : wodSucc sp v = true) :
    wodSucc { sp with success_line := s₂ } v = true := by
  simp only [wodSucc, Bool.or_eq_true, Bool.and_eq_true, bne_iff_ne, ne_eq,
    decide_eq_true_eq] at hv ⊢
  rcases hv with ⟨hne, hle⟩ | hm
  · exact Or.inl ⟨by omega, by omega⟩
  · exact Or.inr hm

/-- C8 counterexample: holding the single draw 1 fixed, decreasing the
success line from 1 to 0 DROPS the success count from 1 to 0 (a zero line
disables the `success_line <= v` test entirely), refuting monotonicity over
all success-line values. -/
theorem C8_counterexample :
    evalWOD defaultCfg "1A2K1" (fun _ => 1) 2 =
      some (.ok ⟨1, "1A2K1=[\x7b1*\x7d]=1"⟩, 1) ∧
    evalWOD defaultCfg "1A2K0" (fun _ => 1) 2 =
      some (.ok ⟨0, "1A2K0=[\x7b1\x7d]=0"⟩, 1) ∧
    ¬ ((1 : Int) ≤ 0) := by
  refine ⟨by decide, by decide, by decide⟩

/-- C8 (amended): for success lines restricted to POSITIVE values, the
success count is monotonically non-decreasing as the line decreases (holding
the draw sequence fixed), and the count is always non-negative. -/
theorem C8_success_monotone :
    ∀ cfg (sp : WODSpec) (s : RSource) fuel (s₂ : Nat),
      1 ≤ s₂ → s₂ ≤ sp.success_line →
      ∀ o cons, wodRoll cfg sp s fuel = some (o, cons) →
      ∃ o₂ cons₂,
        wodRoll cfg { sp with success_line := s₂ } s fuel = some (o₂, cons₂) ∧
        o.result ≤ o₂.result ∧ 0 ≤ o.result := by
  intro cfg sp s fuel s₂ h1 h2 o cons h
  unfold wodRoll at h ⊢
  cases hrl : explodeRounds (wodExceed sp) s fuel sp.count 0 with
  | none => rw [hrl] at h; exact absurd h (by simp)
  | some rl =>
    simp only [hrl, Option.map_some', Option.some_inj] at h
    injection h with ho hc
    have hex : wodExceed { sp with success_line := s₂ } = wodExceed sp := rfl
    have hcnt : ({ sp with success_line := s₂ } : WODSpec).count = sp.count := rfl
    rw [hex, hcnt, hrl]
    refine ⟨⟨(wodSuccessCount { sp with success_line := s₂ } rl : Int),
      lenTrunc cfg (wodOutput cfg { sp with success_line := s₂ } rl)⟩,
      roundsConsumed rl, rfl, ?_, ?_⟩
    · rw [← ho]
      show ((wodSuccessCount sp rl : Nat) : Int) ≤ _
      dsimp only
      have hmono : wodSuccessCount sp rl ≤
          wodSuccessCount { sp with success_line := s₂ } rl := by
        unfold wodSuccessCount
        refine List.sum_le_sum ?_
        intro l hl
        exact List.countP_mono_left (fun v hv hp => wodSucc_mono h1 h2 v hp)
      exact_mod_cast hmono
    · rw [← ho]
      exact Int.ofNat_nonneg _

/-- Witness for C8's amended statement: the `"1A2"` pool (success line 8)
against the constant stream of 1s, lowered to success line 2. -/
theorem C8_success_monotone_witness :
    ∃ o₂ cons₂,
      wodRoll defaultCfg ⟨"1A2", 1, 2, 2, 0, 10⟩ (fun _ => 1) 2 = some (o₂, cons₂) ∧
      (Outcome.result ⟨0, "1A2=[\x7b1\x7d]=0"⟩) ≤ o₂.result ∧
      0 ≤ (Outcome.result ⟨0, "1A2=[\x7b1\x7d]=0"⟩) := by
  have h := C8_success_monotone defaultCfg ⟨"1A2", 1, 2, 8, 0, 10⟩ (fun _ => 1) 2 2
    (by decide) (by decide) ⟨0, "1A2=[\x7b1\x7d]=0"⟩ 1 (by decide)
  exact h

theorem bpCandidates_bounds {base : Nat} {digits : List Nat}
    (hb1 : 1 ≤ base) (hb2 : base ≤ 100) (hd : ∀ d ∈ digits, d ≤ 9) :
    ∀ x ∈ bpCandidates base digits, 1 ≤ x ∧ x ≤ 100 := by
  intro x hx
  unfold bpCandidates at hx
  rcases List.mem_map.mp hx with ⟨y, hy, rfl⟩
  rcases List.mem_cons.mp hy with rfl | hy'
  · split <;> omega
  · rcases List.mem_map.mp hy' with ⟨d, hd', rfl⟩
    have h9 := hd d hd'
    have hmod : base % 10 ≤ 9 := Nat.le_of_lt_succ (Nat.mod_lt _ (by omega))
    split <;> omega

/-- C3 counterexample: for base roll 37 and drawn digit 5, the code forms
`int("5" + "7") = 57` (UNITS digit of the base), while the claim's formula
`int(str(digit) + str(tens digit))` gives 53; the produced result 57 differs
from the claimed maximum 53. -/
theorem C3_counterexample :
    evalBP defaultCfg "P1" (fun k => [37, 5].getD k 0) =
      (.ok ⟨57, "D100=37, P1=5=57"⟩, 2) ∧
    (37 :: [claimTensCandidate 37 5]).map (fun x => if x = 0 then 100 else x) =
      [37, 53] ∧
    listMax [37, 53] = 53 ∧
    (57 : Int) ≠ 53 := by
  refine ⟨by decide, by decide, by decide, by decide⟩

/-- C3 (amended): with the base draw in `[1, 100]` and digit draws in
`[0, 9]`, the result is the maximum (bonus) or minimum (punish) of the
candidate list `{base} ∪ {10 * d_i + (base % 10)}` — the drawn digit
prefixed to the base roll's UNITS digit, not its tens digit, each zero
candidate replaced by 100 — and it always lies in `[1, 100]`. -/
theorem C3_bp_units_digit :
    ∀ cfg (sp : BPSpec) (s : RSource),
      1 ≤ s 0 → s 0 ≤ 100 → (∀ i, i < sp.count → s (i + 1) ≤ 9) →
      ∃ r : Nat, (bpRoll cfg sp s).result = (r : Int) ∧
        r ∈ bpCandidates (s 0) (bpDigits sp s) ∧
        (sp.positive = true → ∀ x ∈ bpCandidates (s 0) (bpDigits sp s), x ≤ r) ∧
        (sp.positive = false → ∀ x ∈ bpCandidates (s 0) (bpDigits sp s), r ≤ x) ∧
        1 ≤ r ∧ r ≤ 100 := by
  intro cfg sp s hb1 hb2 hdig
  have hd : ∀ d ∈ bpDigits sp s, d ≤ 9 := by
    intro d hdm
    unfold bpDigits at hdm
    rcases List.mem_map.mp hdm with ⟨i, hi, rfl⟩
    exact hdig i (List.mem_range.mp hi)
  have hne : bpCandidates (s 0) (bpDigits sp s) ≠ [] := by
    unfold bpCandidates
    simp
  have hbounds := bpCandidates_bounds hb1 hb2 hd
  cases hpos : sp.positive with
  | true =>
    refine ⟨listMax (bpCandidates (s 0) (bpDigits sp s)), ?_, listMax_mem hne,
      ?_, ?_, ?_, ?_⟩
    · show bpResultVal sp (s 0) (bpDigits sp s) = _
      unfold bpResultVal
      rw [hpos]
      simp
    · intro _ x hx
      exact le_listMax hx
    · intro hq
      cases hq
    · exact (hbounds _ (listMax_mem hne)).1
    · exact (hbounds _ (listMax_mem hne)).2
  | false =>
    refine ⟨listMin (bpCandidates (s 0) (bpDigits sp s)), ?_, listMin_mem hne,
      ?_, ?_, ?_, ?_⟩
    · show bpResultVal sp (s 0) (bpDigits sp s) = _
      unfold bpResultVal
      rw [hpos]
      simp
    · intro hq
      cases hq
    · intro _ x hx
      exact listMin_le hx
    · exact (hbounds _ (listMin_mem hne)).1
    · exact (hbounds _ (listMin_mem hne)).2

/-- Witness for C3's amended statement at `"P1"` with draws base 37,
digit 5. -/
theorem C3_bp_units_digit_witness :
    ∃ r : Nat,
      (bpRoll defaultCfg ⟨"P1", 1, true⟩ (fun k => [37, 5].getD k 0)).result = (r : Int) ∧
      r ∈ bpCandidates 37 (bpDigits ⟨"P1", 1, true⟩ (fun k => [37, 5].getD k 0)) ∧
      (true = true → ∀ x ∈ bpCandidates 37
        (bpDigits ⟨"P1", 1, true⟩ (fun k => [37, 5].getD k 0)), x ≤ r) ∧
      (true = false → ∀ x ∈ bpCandidates 37
        (bpDigits ⟨"P1", 1, true⟩ (fun k => [37, 5].getD k 0)), r ≤ x) ∧
      1 ≤ r ∧ r ≤ 100 := by
  have h := C3_bp_units_digit defaultCfg ⟨"P1", 1, true⟩ (fun k => [37, 5].getD k 0)
    (by decide) (by decide) (fun i hi => by interval_cases i <;> decide)
  exact h


set_option maxRecDepth 8000 in
/-- C6 counterexample: the Standard sum bracket truncates only for count
STRICTLY above `MAX_OUTPUT_CNT` (`if self.count > MAX_OUTPUT_CNT`), so a pool
whose count equals the default cap of 50 still renders the fully itemized
bracket, refuting "reaches or exceeds" for every variant. -/
theorem C6_counterexample :
    defaultCfg.max_output_cnt = 50 ∧
    evalStd defaultCfg "50D6" (fun _ => 1) =
      (.ok ⟨50, "50D6=[1+1+1+1+1+1+1+1+1+1+1+1+1+1+1+1+1+1+1+1+1+1+1+1+1+1+1+1+1+1+1+1+1+1+1+1+1+1+1+1+1+1+1+1+1+1+1+1+1+1]=50"⟩, 50) ∧
    "50D6=[1+1+1+1+1+1+1+1+1+1+1+1+1+1+1+1+1+1+1+1+1+1+1+1+1+1+1+1+1+1+1+1+1+1+1+1+1+1+1+1+1+1+1+1+1+1+1+1+1+1]=50" ≠
      "50D6" ++ "=[" ++ i18nTooLongItems 50 ++ "]" ++ "=50" := by
  refine ⟨by decide, by decide, by decide⟩

/-- C6 (amended): the item-count truncation threshold is `>=` for the
Standard keep/drop bracket, Bonus/Punish, Exploding-Pool and Double-Cross,
but STRICT `>` for the Standard sum bracket and for Fudge (count equal to
the cap still renders itemized there, see the counterexample; the truncated
Fudge trace also drops its code prefix).  In every variant the numeric
result equals the untruncated evaluation over the same draw sequence: it is
invariant under any change of the output configuration. -/
theorem C6_item_truncation :
    (∀ cfg (sp : DiceSpec) (s : RSource), sp.adv = 0 → 1 < sp.count →
      sp.count ≤ cfg.max_output_cnt →
      diceSumPart cfg sp (diceDraws sp s) =
        "=[" ++ String.intercalate "+"
          ((diceDraws sp s).map (fun v => fmt_num cfg (v : Int))) ++ "]") ∧
    (∀ cfg (sp : DiceSpec) (s : RSource), sp.adv = 0 → 1 < sp.count →
      cfg.max_output_cnt < sp.count →
      diceSumPart cfg sp (diceDraws sp s) = "=[" ++ i18nTooLongItems sp.count ++ "]") ∧
    (∀ cfg (sp : DiceSpec) (s : RSource), sp.adv ≠ 0 →
      cfg.max_output_cnt ≤ sp.count →
      diceAdvPart cfg sp (diceDraws sp s) = "=[" ++ i18nTooLongItems sp.count ++ "]") ∧
    (∀ cfg (sp : FudgeSpec) (f : FSource), sp.count ≤ cfg.max_output_cnt →
      fudgeOutput cfg sp (fudgePicks sp f) =
        pyReplace sp.code "D" "" ++ "=[" ++ String.intercalate ", " (fudgePicks sp f) ++
          "]" ++ "=" ++ fmt_num cfg (fudgeResultVal (fudgePicks sp f)) true) ∧
    (∀ cfg (sp : FudgeSpec) (f : FSource), cfg.max_output_cnt < sp.count →
      fudgeOutput cfg sp (fudgePicks sp f) =
        "=[" ++ i18nTooLongItems sp.count ++ "]" ++ "=" ++
          fmt_num cfg (fudgeResultVal (fudgePicks sp f)) true) ∧
    (∀ cfg (sp : BPSpec) (s : RSource), 1 < sp.count → cfg.max_output_cnt ≤ sp.count →
      bpOutput cfg sp (s 0) (bpDigits sp s) =
        "D100=" ++ toString (s 0) ++ ", " ++ sp.code ++
          ("=[" ++ i18nTooLongItems sp.count ++ "]") ++ "=" ++
          fmt_num cfg (bpResultVal sp (s 0) (bpDigits sp s)) true) ∧
    (∀ cfg (sp : WODSpec) (rl : List (List Nat)), cfg.max_output_cnt ≤ sp.count →
      wodOutput cfg sp rl =
        sp.code ++ ("=[" ++ i18nTooLongItems sp.count ++ "]") ++ "=" ++
          fmt_num cfg (wodSuccessCount sp rl : Int) true) ∧
    (∀ cfg (sp : DXSpec) (rl : List (List Nat)), cfg.max_output_cnt ≤ sp.count →
      dxOutput cfg sp rl =
        sp.code ++ ("=[" ++ i18nTooLongItems sp.count ++ "]") ++ "=" ++
          fmt_num cfg (dxResultVal sp rl) true) ∧
    (∀ cfg cfg2 (sp : DiceSpec) (s : RSource),
      (diceRoll cfg sp s).result = (diceRoll cfg2 sp s).result) ∧
    (∀ cfg cfg2 (sp : FudgeSpec) (f : FSource),
      (fudgeRoll cfg sp f).result = (fudgeRoll cfg2 sp f).result) ∧
    (∀ cfg cfg2 (sp : BPSpec) (s : RSource),
      (bpRoll cfg sp s).result = (bpRoll cfg2 sp s).result) ∧
    (∀ cfg cfg2 (sp : WODSpec) (s : RSource) fuel,
      (wodRoll cfg sp s fuel).map (fun t => t.1.result) =
        (wodRoll cfg2 sp s fuel).map (fun t => t.1.result)) ∧
    (∀ cfg cfg2 (sp : DXSpec) (s : RSource) fuel,
      (dxRoll cfg sp s fuel).map (fun t => t.1.result) =
        (dxRoll cfg2 sp s fuel).map (fun t => t.1.result)) := by
  have hreslen : ∀ (sp : DiceSpec) (s : RSource), sp.adv = 0 →
      diceResults sp (diceDraws sp s) = diceDraws sp s ∧
        (diceDraws sp s).length = sp.count := by
    intro sp s hadv
    constructor
    · unfold diceResults
      simp [hadv]
    · unfold diceDraws
      simp
  refine ⟨?_, ?_, ?_, ?_, ?_, ?_, ?_, ?_, fun cfg cfg2 sp s => rfl,
    fun cfg cfg2 sp f => rfl, fun cfg cfg2 sp s => rfl, ?_, ?_⟩
  · intro cfg sp s hadv h1 h2
    obtain ⟨hres, hlen⟩ := hreslen sp s hadv
    unfold diceSumPart
    rw [hres]
    dsimp only
    rw [hlen, if_pos h1, if_neg (by omega)]
  · intro cfg sp s hadv h1 h2
    obtain ⟨hres, hlen⟩ := hreslen sp s hadv
    unfold diceSumPart
    rw [hres]
    dsimp only
    rw [hlen, if_pos h1, if_pos (by omega)]
  · intro cfg sp s hadv h2
    unfold diceAdvPart
    rw [if_pos hadv, if_pos (by omega)]
  · intro cfg sp f h
    unfold fudgeOutput
    dsimp only
    rw [if_neg (by omega)]
  · intro cfg sp f h
    unfold fudgeOutput
    dsimp only
    rw [if_pos (by omega)]
  · intro cfg sp s h1 h2
    unfold bpOutput
    dsimp only
    rw [if_pos h1, if_pos (by omega)]
  · intro cfg sp rl h
    unfold wodOutput
    dsimp only
    rw [if_pos (by omega)]
  · intro cfg sp rl h
    unfold dxOutput
    dsimp only
    rw [if_pos (by omega)]
  · intro cfg cfg2 sp s fuel
    unfold wodRoll
    cases explodeRounds (wodExceed sp) s fuel sp.count 0 <;> rfl
  · intro cfg cfg2 sp s fuel
    unfold dxRoll
    cases explodeRounds (dxExceed sp) s fuel sp.count 0 <;> rfl

/-- Witness for C6's amended statement: at the default cap 50, `"50D6"`
renders itemized while `"51D6"` renders the placeholder; the keep/drop
bracket of a 50-die pool already truncates at equality. -/
theorem C6_item_truncation_witness :
    diceSumPart defaultCfg ⟨"50D6", 50, 6, 0, 0⟩
        (diceDraws ⟨"50D6", 50, 6, 0, 0⟩ (fun _ => 1)) =
      "=[" ++ String.intercalate "+"
        ((diceDraws ⟨"50D6", 50, 6, 0, 0⟩ (fun _ => 1)).map
          (fun v => fmt_num defaultCfg (v : Int))) ++ "]" ∧
    diceSumPart defaultCfg ⟨"51D6", 51, 6, 0, 0⟩
        (diceDraws ⟨"51D6", 51, 6, 0, 0⟩ (fun _ => 1)) =
      "=[" ++ i18nTooLongItems 51 ++ "]" ∧
    diceAdvPart defaultCfg ⟨"50D6K2", 50, 6, 2, 1⟩
        (diceDraws ⟨"50D6K2", 50, 6, 2, 1⟩ (fun _ => 1)) =
      "=[" ++ i18nTooLongItems 50 ++ "]" := by
  refine ⟨C6_item_truncation.1 defaultCfg _ _ rfl (by decide) (by decide),
    (C6_item_truncation.2.1 defaultCfg _ _ rfl (by decide) (by decide)),
    (C6_item_truncation.2.2.1 defaultCfg _ _ (by decide) (by decide))⟩

end DiceMod
